import Mathlib

/-!
Shallow embedding of `scripts/kani_chunked_runner.py` (checkpointed Kani
proof runner for chunked verification), together with theorems checking
the natural-language specification against it.

Conventions of the embedding:
* Python `int` is `ℤ`; Python floor division `//` is `Int.fdiv` and `%` is
  `Int.fmod` (both agree with Python's sign conventions).
* CSV rows are records of `String` fields, one per column of the schema.
* The builtin `int(...)` conversion applied to a CSV field is `pyInt`,
  returning `none` where Python raises `ValueError`.
* Fallible functions return `Option`/`Except`; `Except.error` models an
  uncaught Python exception escaping the function.
* Wall-clock times are `ℚ` (their values are environment inputs and no
  property depends on them).
-/

namespace KaniRunner

/-- Python `int(s)` for base 10: optional surrounding whitespace, optional
sign, then a nonempty digit sequence in which single underscores may appear
between digits.  Returns `none` where Python raises `ValueError`.
`pyIntDigits acc l` consumes the digit/underscore tail `l` after an
initial digit with accumulated value `acc`. -/
def pyIntDigits (acc : Nat) : List Char → Option Nat
  | [] => some acc
  | c :: rest =>
    if c = '_' then
      match rest with
      | [] => none
      | d :: ds =>
        if d.isDigit then pyIntDigits (acc * 10 + (d.toNat - 48)) ds
        else none
    else if c.isDigit then pyIntDigits (acc * 10 + (c.toNat - 48)) rest
    else none

/-- Surrounding-whitespace strip performed by Python `int`. -/
def pyStrip (l : List Char) : List Char :=
  ((l.dropWhile Char.isWhitespace).reverse.dropWhile
    Char.isWhitespace).reverse

def pyIntCore : List Char → Option ℤ
  | [] => none
  | c :: rest =>
    if c = '-' then
      match rest with
      | [] => none
      | d :: ds =>
        if d.isDigit then (pyIntDigits (d.toNat - 48) ds).map
          (fun v => - (v : ℤ))
        else none
    else if c = '+' then
      match rest with
      | [] => none
      | d :: ds =>
        if d.isDigit then (pyIntDigits (d.toNat - 48) ds).map
          (fun v => (v : ℤ))
        else none
    else if c.isDigit then (pyIntDigits (c.toNat - 48) rest).map
      (fun v => (v : ℤ))
    else none

def pyInt (s : String) : Option ℤ := pyIntCore (pyStrip s.toList)

/-- A nonempty string of plain decimal digits (the shape of every
`Chunk_Number` field the runner itself writes). -/
def isDecimalDigitString (s : String) : Bool :=
  !(s.toList.isEmpty) && s.toList.all Char.isDigit

/-! ## Proof space definitions (`PROOF_SPACES`) -/

/-- One entry of the `PROOF_SPACES` dict.  `byte3_range`/`byte4_range`
are `none` where the Python dict lacks the key (accessing a missing key
would raise, modelled as `none` propagation). -/
structure ProofSpace where
  byte1_range : ℤ × ℤ
  byte2_range : ℤ × ℤ
  byte3_range : Option (ℤ × ℤ)
  byte4_range : Option (ℤ × ℤ)
  total_combos : ℤ
deriving DecidableEq, Repr

def PROOF_SPACES : List (String × ProofSpace) :=
  [ ("2byte",
      { byte1_range := (0xC2, 0xDF)  -- source comment: 62 values (avoids overlong)
        byte2_range := (0x80, 0xBF)  -- 64 values (continuation)
        byte3_range := none
        byte4_range := none
        total_combos := 3968 }),     -- source comment: 62 × 64
    ("3byte",
      { byte1_range := (0xE1, 0xEC)  -- 12 values (avoids overlong/surrogate)
        byte2_range := (0x80, 0xBF)
        byte3_range := some (0x80, 0xBF)
        byte4_range := none
        total_combos := 49152 }),    -- 12 × 64 × 64
    ("4byte",
      { byte1_range := (0xF1, 0xF3)  -- 3 values (avoids overlong/overflow)
        byte2_range := (0x80, 0xBF)
        byte3_range := some (0x80, 0xBF)
        byte4_range := some (0x80, 0xBF)
        total_combos := 786432 }) ]  -- 3 × 64³

def lookupSpace (proof_type : String) : Option ProofSpace :=
  (PROOF_SPACES.find? (fun p => p.1 = proof_type)).map (·.2)

/-! ## `partition_range` -/

/-- Body of the `for i in range(num_chunks)` loop of `partition_range`:
`k` counts the iterations still to perform, `i` is the loop index and
`current` the running lower bound. -/
def partitionGo (chunk_size remainder endv : ℤ) :
    Nat → Nat → ℤ → List (ℤ × ℤ)
  | 0, _, _ => []
  | k + 1, i, current =>
      -- Distribute remainder across first chunks
      let size := chunk_size + (if (i : ℤ) < remainder then 1 else 0)
      let chunk_end := current + size - 1
      (current, min chunk_end endv) ::
        partitionGo chunk_size remainder endv k (i + 1) (chunk_end + 1)

/-- Function `partition_range(start, end, num_chunks)`: partition byte
range into N chunks. -/
def partition_range (start endv : ℤ) (num_chunks : ℤ) : List (ℤ × ℤ) :=
  let total_values := endv - start + 1
  let chunk_size := total_values.fdiv num_chunks
  let remainder := total_values.fmod num_chunks
  partitionGo chunk_size remainder endv num_chunks.toNat 0 start

/-! ## `calculate_chunk_config` -/

structure ChunkInfo where
  chunk_num : Nat
  harness : String
  byte_range : ℤ × ℤ
  combos : ℤ
deriving DecidableEq, Repr

instance : Inhabited ChunkInfo := ⟨⟨0, "", (0, 0), 0⟩⟩

structure ChunkConfig where
  chunks : List ChunkInfo
  total : ℤ
deriving DecidableEq, Repr

/-- Function `calculate_chunk_config(proof_type, num_chunks)`; `none`
models the `ValueError` raised for an unknown proof type (and a
hypothetical missing secondary-range key). -/
def calculate_chunk_config (proof_type : String) (num_chunks : ℤ) :
    Option ChunkConfig :=
  match lookupSpace proof_type with
  | none => none
  | some space =>
    let byte1_start := space.byte1_range.1
    let byte1_end := space.byte1_range.2
    let byte1_chunks := partition_range byte1_start byte1_end num_chunks
    let combosPer : Option ℤ :=
      if proof_type = "2byte" then
        some (space.byte2_range.2 - space.byte2_range.1 + 1)
      else if proof_type = "3byte" then
        match space.byte3_range with
        | none => none
        | some r3 =>
          some ((space.byte2_range.2 - space.byte2_range.1 + 1) *
                (r3.2 - r3.1 + 1))
      else if proof_type = "4byte" then
        match space.byte3_range, space.byte4_range with
        | some r3, some r4 =>
          some ((space.byte2_range.2 - space.byte2_range.1 + 1) *
                (r3.2 - r3.1 + 1) * (r4.2 - r4.1 + 1))
        | _, _ => none
      else none
    match combosPer with
    | none => none
    | some combos_per_byte1 =>
      some
        { chunks := (byte1_chunks.enum.map (fun p =>
            let chunk_start := p.2.1
            let chunk_end := p.2.2
            let i := p.1
            { chunk_num := i
              harness := s!"verify_{proof_type}_{num_chunks}chunks_{i}"
              byte_range := (chunk_start, chunk_end)
              combos := (chunk_end - chunk_start + 1) * combos_per_byte1 }))
          total := space.total_combos }

/-! ## The CSV record (`ProofRecord`) -/

/-- One data row of the CSV record, as read back by `csv.DictReader`
(every field a string), with the fixed column schema of
`ProofRecord.fieldnames`. -/
structure Row where
  Timestamp : String
  Proof_Type : String
  Chunk_ID : String
  Chunk_Number : String
  Total_Chunks : String
  Byte_Range : String
  Combinations : String
  Time_Seconds : String
  Status : String
  Kani_Version : String
deriving DecidableEq, Repr

/-- In-memory part of `ProofRecord.__init__`: the stored category, chunk
count and derived CSV path. -/
structure ProofRecordState where
  proof_type : String
  num_chunks : ℤ
  csv_path : String
deriving DecidableEq, Repr

def mkProofRecord (proof_type : String) (num_chunks : ℤ) :
    ProofRecordState :=
  { proof_type := proof_type
    num_chunks := num_chunks
    csv_path := s!"kani_proof_record_{num_chunks}.csv" }

/-- Method `ProofRecord.get_completed_chunks`, iterating over the data
rows; `Except.error` models the uncaught `ValueError` of `int(...)` on
a non-numeric `Chunk_Number` field of a matching row. -/
def getCompletedAux (proof_type : String) (completed : Finset ℤ) :
    List Row → Except String (Finset ℤ)
  | [] => .ok completed
  | row :: rest =>
    if row.Proof_Type = proof_type ∧ row.Status = "SUCCESS" then
      match pyInt row.Chunk_Number with
      | some k => getCompletedAux proof_type (insert k completed) rest
      | none =>
          .error ("invalid literal for int() with base 10: " ++
            row.Chunk_Number)
    else getCompletedAux proof_type completed rest

def get_completed_chunks (proof_type : String) (rows : List Row) :
    Except String (Finset ℤ) :=
  getCompletedAux proof_type ∅ rows

/-- Python hex formatting `f"{v:#04x}"` (width 4 including the `0x`
prefix, zero padded).  All values formatted by the runner are
nonnegative. -/
def pyHex04 (v : ℤ) : String :=
  let ds := Nat.toDigits 16 v.toNat
  let ds := if ds.length < 2 then
      List.replicate (2 - ds.length) '0' ++ ds else ds
  "0x" ++ String.mk ds

/-- Method `ProofRecord.append_result` builds this row and appends it to the
CSV.  `timestamp` and `kani_version` come from the environment
(`datetime.now()` / `cargo kani --version`); `Time_Seconds` abstracts
the `{:.2f}` float rendering as a decimal rendering of the rational. -/
def appendResultRow (st : ProofRecordState) (timestamp : String)
    (kani_version : String) (chunk_num : Nat) (chunk_range : ℤ × ℤ)
    (combos : ℤ) (time_sec : ℚ) (status : String) : Row :=
  { Timestamp := timestamp
    Proof_Type := st.proof_type
    Chunk_ID := toString chunk_num ++ "/" ++ toString st.num_chunks
    Chunk_Number := s!"{chunk_num}"
    Total_Chunks := toString st.num_chunks
    Byte_Range := pyHex04 chunk_range.1 ++ "-" ++ pyHex04 chunk_range.2
    Combinations := s!"{combos}"
    Time_Seconds := s!"{time_sec}"
    Status := status
    Kani_Version := kani_version }

/-! ## `run_chunk` -/

/-- Possible behaviors of the `subprocess.run` call inside `run_chunk`:
the process ran to completion with some exit status, the
`subprocess.TimeoutExpired` exception was raised, or some other
exception was raised (e.g. spawn failure).  The call passes
`timeout=None`, under which `subprocess.run` never raises
`TimeoutExpired`, so that constructor is unreachable at the call site. -/
inductive SubprocOutcome where
  | completed (returncode : ℤ)
  | timeoutExpired
  | raised (msg : String)
deriving DecidableEq, Repr

/-- Function `run_chunk(harness)`: returns `(time, status)`.  The elapsed
wall-clock time and the subprocess behavior are environment inputs.
Totality of this function is the model of "never raises to its
caller": every branch of the `try`/`except` returns a pair. -/
def run_chunk (elapsed : ℚ) (outcome : SubprocOutcome) : ℚ × String :=
  match outcome with
  | .completed returncode =>
      if returncode = 0 then (elapsed, "SUCCESS") else (elapsed, "FAILED")
  | .timeoutExpired => (elapsed, "TIMEOUT")
  | .raised msg => (elapsed, "ERROR: " ++ msg)

/-! ## The execution supervisor (`main`)

`main` is modelled as a pure function from the environment (command-line
arguments, current record-file contents, operator responses, chunk-job
behaviors, clock and tool-version readings) to the session's observable
result: the ordered console output, how the process ended, and the final
record-file contents.  Every Python `print(...)` emits one structured
message on `Stream.stdout` (`print` writes to standard output; the
program never writes to standard error). -/

inductive Stream where
  | stdout
  | stderr
deriving DecidableEq, Repr

inductive Msg where
  | usage
  | errNonPositive (n : ℤ)
  | errNonInteger (s : String)
  | errInvalidType (t : String)
  | errCalcFailed
  | createdRecord (path : String)
  | usingRecord (path : String)
  | progressSummary (proof_type : String) (num_chunks : ℤ)
      (completedSet : Finset ℤ) (total : Nat)
  | allChunksAlreadyVerified
  | chunkBreakdown (shown : List ChunkInfo) (moreCount : Nat)
  | readyToVerify (remainingCount : Nat) (totalCoverage : ℤ)
  | promptContinue
  | cancelled
  | startBanner
  | chunkHeader (displayNum total : Nat) (harness : String)
      (range : ℤ × ℤ) (combos : ℤ)
  | chunkVerified (elapsed : ℚ)
  | chunkFailed (status : String) (elapsed : ℚ)
  | promptContinueRemaining
  | stoppingSaved
  | progressUpdate (completedCount total : Nat)
  | allVerified (totalCoverage : ℤ)
  | partialCompletion
  | recordPathNote (path : String)
  | warnDegenerateChunks
deriving DecidableEq

inductive Outcome where
  | exited (code : ℤ)
  | returned
  | raised (msg : String)
deriving DecidableEq, Repr

/-- The environment a session runs in.  `responses` enumerates successive
`input()` results, `runBehavior`/`timestamp` give per-chunk subprocess
behavior, elapsed time and timestamp, `existingFile` is the record file's
data rows (`none` if the file does not exist). -/
structure Env where
  argv : List String
  existingFile : Option (List Row)
  responses : Nat → String
  runBehavior : Nat → ℚ × SubprocOutcome
  timestamp : Nat → String
  kaniVersion : String

structure MainResult where
  output : List (Stream × Msg)
  outcome : Outcome
  file : Option (List Row)
deriving DecidableEq

/-- Python `str.lower()` (ASCII case fold; the compared responses are
ASCII). -/
def pyLower (s : String) : String := String.mk (s.toList.map Char.toLower)

/-- Method `ProofRecord.print_summary(completed, total)` as one structured
message.  The printed lines — completed count, percentage
`len(completed)/total*100`, remaining count `total - len(completed)`,
`sorted(completed)` and the first ten missing indices — are all
functions of the two payload fields. -/
def summaryMsg (proof_type : String) (num_chunks : ℤ)
    (completed : Finset ℤ) (total : Nat) : Msg :=
  .progressSummary proof_type num_chunks completed total

/-- State carried through the `for chunk_num in remaining_chunks`
loop. -/
structure LoopState where
  completed : Finset ℤ
  rows : List Row
  output : List (Stream × Msg)
  promptIdx : Nat

/-- The `for chunk_num in remaining_chunks` loop of `main`.  Returning
without recursing models `break`; the unconditional
`completed.add(chunk_num)` at the loop's end runs on every path that
does not `break`. -/
def mainLoop (env : Env) (rec0 : ProofRecordState) (config : ChunkConfig)
    (total_chunks : Nat) : List Nat → LoopState → LoopState
  | [], st => st
  | chunk_num :: rest, st =>
    let info := config.chunks.getD chunk_num default
    let st1 : LoopState := { st with output := st.output ++
      [(Stream.stdout, Msg.chunkHeader (chunk_num + 1) total_chunks
          info.harness info.byte_range info.combos)] }
    let behavior := env.runBehavior chunk_num
    let es := run_chunk behavior.1 behavior.2
    let elapsed := es.1
    let status := es.2
    let row := appendResultRow rec0 (env.timestamp chunk_num)
      env.kaniVersion chunk_num info.byte_range info.combos elapsed status
    let st2 : LoopState := { st1 with rows := st1.rows ++ [row] }
    if status = "SUCCESS" then
      let st3 : LoopState := { st2 with output := st2.output ++
        [(Stream.stdout, Msg.chunkVerified elapsed)] }
      let completed := insert (chunk_num : ℤ) st3.completed
      let st4 : LoopState :=
        { st3 with
          completed := completed
          output := st3.output ++
            [(Stream.stdout,
              Msg.progressUpdate completed.card total_chunks)] }
      mainLoop env rec0 config total_chunks rest st4
    else
      let st3 : LoopState := { st2 with output := st2.output ++
        [(Stream.stdout, Msg.chunkFailed status elapsed),
         (Stream.stdout, Msg.promptContinueRemaining)] }
      if pyLower (env.responses st3.promptIdx) ≠ "y" then
        { st3 with output := st3.output ++
            [(Stream.stdout, Msg.stoppingSaved)] }
      else
        let st4 : LoopState := { st3 with promptIdx := st3.promptIdx + 1 }
        let completed := insert (chunk_num : ℤ) st4.completed
        let st5 : LoopState :=
          { st4 with
            completed := completed
            output := st4.output ++
              [(Stream.stdout,
                Msg.progressUpdate completed.card total_chunks)] }
        mainLoop env rec0 config total_chunks rest st5

/-- Line `remaining_chunks = [i for i in range(total_chunks) if i not in
completed]` of `main`. -/
def remainingChunks (total_chunks : Nat) (completed : Finset ℤ) :
    List Nat :=
  (List.range total_chunks).filter (fun (i : Nat) => ¬ ((i : ℤ) ∈ completed))

/-- The part of `main()` from `record = ProofRecord(...)` on, reached
once the arguments have validated and the chunk configuration has been
computed. -/
def mainWithConfig (env : Env) (proof_type : String) (num_chunks : ℤ)
    (config : ChunkConfig) : MainResult :=
  let rec0 := mkProofRecord proof_type num_chunks
  let rows0 := env.existingFile.getD []
  let initMsg : Msg :=
    match env.existingFile with
    | none => Msg.createdRecord rec0.csv_path
    | some _ => Msg.usingRecord rec0.csv_path
  match get_completed_chunks proof_type rows0 with
  | .error e =>
      { output := [(Stream.stdout, initMsg)]
        outcome := .raised e
        file := some rows0 }
  | .ok completed0 =>
    let total_chunks := config.chunks.length
    let remaining := remainingChunks total_chunks completed0
    let out0 := [(Stream.stdout, initMsg),
      (Stream.stdout, summaryMsg proof_type num_chunks completed0
         total_chunks)]
    if remaining.isEmpty then
      { output := out0 ++ [(Stream.stdout, Msg.allChunksAlreadyVerified)]
        outcome := .returned
        file := some rows0 }
    else
      let out1 := out0 ++
        [(Stream.stdout, Msg.chunkBreakdown (config.chunks.take 5)
            (config.chunks.length - 5)),
         (Stream.stdout, Msg.readyToVerify remaining.length config.total),
         (Stream.stdout, Msg.promptContinue)]
      if pyLower (env.responses 0) ≠ "y" then
        { output := out1 ++ [(Stream.stdout, Msg.cancelled)]
          outcome := .returned
          file := some rows0 }
      else
        let st := mainLoop env rec0 config total_chunks remaining
          { completed := completed0
            rows := rows0
            output := out1 ++ [(Stream.stdout, Msg.startBanner)]
            promptIdx := 1 }
        { output := st.output ++
            [(Stream.stdout, summaryMsg proof_type num_chunks
                st.completed total_chunks)] ++
            (if st.completed.card = total_chunks then
               [(Stream.stdout, Msg.allVerified config.total)]
             else [(Stream.stdout, Msg.partialCompletion)]) ++
            [(Stream.stdout, Msg.recordPathNote rec0.csv_path)]
          outcome := .returned
          file := some st.rows }

/-- Function `main()`. -/
def mainModel (env : Env) : MainResult :=
  if env.argv.length ≠ 3 then
    { output := [(Stream.stdout, Msg.usage)]
      outcome := .exited 1
      file := env.existingFile }
  else
    let proof_type := env.argv.getD 1 ""
    let chunkStr := env.argv.getD 2 ""
    match pyInt chunkStr with
    | none =>
        { output := [(Stream.stdout, Msg.errNonInteger chunkStr)]
          outcome := .exited 1
          file := env.existingFile }
    | some num_chunks =>
      if num_chunks < 1 then
        { output := [(Stream.stdout, Msg.errNonPositive num_chunks)]
          outcome := .exited 1
          file := env.existingFile }
      else if (lookupSpace proof_type).isNone then
        { output := [(Stream.stdout, Msg.errInvalidType proof_type)]
          outcome := .exited 1
          file := env.existingFile }
      else
        match calculate_chunk_config proof_type num_chunks with
        | none =>
            { output := [(Stream.stdout, Msg.errCalcFailed)]
              outcome := .exited 1
              file := env.existingFile }
        | some config => mainWithConfig env proof_type num_chunks config

/-- Recognizes the per-chunk header print (`📦 Chunk i/N: harness`),
emitted exactly once per chunk execution. -/
def isChunkHeaderMsg : Msg → Bool
  | .chunkHeader _ _ _ _ _ => true
  | _ => false

/-- A CSV data row with the claim-relevant fields set and the remaining
columns filled with plausible constants. -/
def sampleRow (pt num st : String) : Row :=
  { Timestamp := "2024-01-01T00:00:00"
    Proof_Type := pt
    Chunk_ID := "0/4"
    Chunk_Number := num
    Total_Chunks := "4"
    Byte_Range := "0xc2-0xc9"
    Combinations := "512"
    Time_Seconds := "1.00"
    Status := st
    Kani_Version := "kani 1.0" }

/-- Session environment: 2byte category, one chunk, fresh record file,
operator always answers `y`, the chunk job exits with status 1. -/
def envC2 : Env :=
  { argv := ["kani_chunked_runner.py", "2byte", "1"]
    existingFile := none
    responses := fun _ => "y"
    runBehavior := fun _ => (5, SubprocOutcome.completed 1)
    timestamp := fun _ => "2024-01-01T00:00:00"
    kaniVersion := "kani 1.0" }

/-- Session environment: 2byte category with 31 chunks requested over a
30-value primary range (degenerate zero-width final chunk), fresh
record, all jobs succeed. -/
def envC6 : Env :=
  { argv := ["kani_chunked_runner.py", "2byte", "31"]
    existingFile := none
    responses := fun _ => "y"
    runBehavior := fun _ => (5, SubprocOutcome.completed 0)
    timestamp := fun _ => "2024-01-01T00:00:00"
    kaniVersion := "kani 1.0" }

/-- Session environment: invalid proof category `5byte`. -/
def envC8 : Env :=
  { argv := ["kani_chunked_runner.py", "5byte", "3"]
    existingFile := none
    responses := fun _ => "y"
    runBehavior := fun _ => (5, SubprocOutcome.completed 0)
    timestamp := fun _ => "2024-01-01T00:00:00"
    kaniVersion := "kani 1.0" }

/-- Session environment: existing record containing a SUCCESS row of the
current category whose `Chunk_Number` is not numeric. -/
def envC10 : Env :=
  { argv := ["kani_chunked_runner.py", "2byte", "2"]
    existingFile := some [sampleRow "2byte" "abc" "SUCCESS"]
    responses := fun _ => "y"
    runBehavior := fun _ => (5, SubprocOutcome.completed 0)
    timestamp := fun _ => "2024-01-01T00:00:00"
    kaniVersion := "kani 1.0" }

/-! ## Closed form of `partition_range`

With `T = hi - lo + 1`, `base = T // n`, `rem = T % n`, chunk `j`
starts at offset `base * j + min j rem` from `lo`. -/

def chunkOffset (base rem : ℤ) (i : Nat) : ℤ := base * i + min (i : ℤ) rem

lemma chunkOffset_zero (base rem : ℤ) (hrem : 0 ≤ rem) :
    chunkOffset base rem 0 = 0 := by
  simp [chunkOffset, min_eq_left hrem]

lemma chunkOffset_succ (base rem : ℤ) (i : Nat) :
    chunkOffset base rem (i + 1) =
      chunkOffset base rem i + (base + if (i : ℤ) < rem then 1 else 0) := by
  unfold chunkOffset
  push_cast
  rw [mul_add, mul_one]
  rcases lt_or_le (i : ℤ) rem with h | h
  · rw [if_pos h]
    have h1 : min ((i : ℤ) + 1) rem = min (i : ℤ) rem + 1 := by omega
    omega
  · rw [if_neg (not_lt.mpr h)]
    have h1 : min ((i : ℤ) + 1) rem = min (i : ℤ) rem := by omega
    omega

lemma chunkOffset_mono (base rem : ℤ) (hbase : 0 ≤ base) {a b : Nat}
    (hab : a ≤ b) : chunkOffset base rem a ≤ chunkOffset base rem b := by
  unfold chunkOffset
  have h1 : (a : ℤ) ≤ (b : ℤ) := by exact_mod_cast hab
  have h2 : base * a ≤ base * b := mul_le_mul_of_nonneg_left h1 hbase
  have h3 : min (a : ℤ) rem ≤ min (b : ℤ) rem := by omega
  omega

lemma chunkOffset_top (base rem : ℤ) (m : Nat) (hrem : rem ≤ (m : ℤ)) :
    chunkOffset base rem m = base * m + rem := by
  simp [chunkOffset, min_eq_right hrem]

lemma partitionGo_closed (base rem lo : ℤ) (m : Nat)
    (hbase : 0 ≤ base) (hrem0 : 0 ≤ rem) (hremm : rem ≤ (m : ℤ)) :
    ∀ (k i : Nat), i + k = m →
      partitionGo base rem (lo + base * m + rem - 1) k i
          (lo + chunkOffset base rem i) =
        (List.range' i k).map (fun j =>
          (lo + chunkOffset base rem j,
           lo + chunkOffset base rem (j + 1) - 1)) := by
  intro k
  induction k with
  | zero => intro i _; simp [partitionGo]
  | succ k ih =>
    intro i h
    have hchunk : lo + chunkOffset base rem i +
        (base + if (i : ℤ) < rem then 1 else 0) - 1 =
        lo + chunkOffset base rem (i + 1) - 1 := by
      rw [chunkOffset_succ]; ring
    have hi1m : i + 1 ≤ m := by omega
    have hlemax : lo + chunkOffset base rem (i + 1) - 1 ≤
        lo + base * m + rem - 1 := by
      have := chunkOffset_mono base rem hbase hi1m
      rw [chunkOffset_top base rem m hremm] at this
      omega
    have hnext : lo + chunkOffset base rem (i + 1) - 1 + 1 =
        lo + chunkOffset base rem (i + 1) := by ring
    rw [partitionGo]
    simp only [hchunk, min_eq_left hlemax, hnext]
    rw [ih (i + 1) (by omega), List.range'_succ, List.map_cons]

theorem partition_range_eq (lo hi n : ℤ) (hn : 0 < n)
    (hT : 0 ≤ hi - lo + 1) :
    partition_range lo hi n =
      (List.range n.toNat).map (fun j =>
        (lo + chunkOffset ((hi - lo + 1).fdiv n) ((hi - lo + 1).fmod n) j,
         lo + chunkOffset ((hi - lo + 1).fdiv n) ((hi - lo + 1).fmod n)
             (j + 1) - 1)) := by
  have hn0 : (0 : ℤ) ≤ n := le_of_lt hn
  have hfd : (hi - lo + 1).fdiv n = (hi - lo + 1) / n :=
    Int.fdiv_eq_ediv _ hn0
  have hfm : (hi - lo + 1).fmod n = (hi - lo + 1) % n :=
    Int.fmod_eq_emod _ hn0
  have hbase : 0 ≤ (hi - lo + 1).fdiv n := by
    rw [hfd]; exact Int.ediv_nonneg hT hn0
  have hrem0 : 0 ≤ (hi - lo + 1).fmod n := by
    rw [hfm]; exact Int.emod_nonneg _ (ne_of_gt hn)
  have hremlt : (hi - lo + 1).fmod n < n := by
    rw [hfm]; exact Int.emod_lt_of_pos _ hn
  have hmZ : ((n.toNat : ℤ)) = n := Int.toNat_of_nonneg hn0
  have hremm : (hi - lo + 1).fmod n ≤ (n.toNat : ℤ) := by
    rw [hmZ]; exact le_of_lt hremlt
  have hid : (hi - lo + 1).fdiv n * n + (hi - lo + 1).fmod n =
      hi - lo + 1 := by
    rw [hfd, hfm, mul_comm]
    exact Int.ediv_add_emod _ _
  have key := partitionGo_closed ((hi - lo + 1).fdiv n)
    ((hi - lo + 1).fmod n) lo n.toNat hbase hrem0 hremm n.toNat 0
    (by omega)
  rw [chunkOffset_zero _ _ hrem0, add_zero, hmZ] at key
  have hend : lo + (hi - lo + 1).fdiv n * n + (hi - lo + 1).fmod n - 1 =
      hi := by linarith [hid]
  rw [hend] at key
  show partitionGo ((hi - lo + 1).fdiv n) ((hi - lo + 1).fmod n) hi
      n.toNat 0 lo = _
  rw [List.range_eq_range']
  exact key

lemma fdiv_fmod_facts (T n : ℤ) (hn : 0 < n) (hT : 0 ≤ T) :
    0 ≤ T.fdiv n ∧ 0 ≤ T.fmod n ∧ T.fmod n < n ∧
      T.fdiv n * n + T.fmod n = T := by
  have hn0 : (0 : ℤ) ≤ n := le_of_lt hn
  rw [Int.fdiv_eq_ediv _ hn0, Int.fmod_eq_emod _ hn0]
  refine ⟨Int.ediv_nonneg hT hn0, Int.emod_nonneg _ (ne_of_gt hn),
    Int.emod_lt_of_pos _ hn, ?_⟩
  rw [mul_comm]
  exact Int.ediv_add_emod _ _

lemma fdiv_one_le (T n : ℤ) (hn : 0 < n) (hnT : n ≤ T) : 1 ≤ T.fdiv n := by
  obtain ⟨hb, hr, hrlt, hid⟩ := fdiv_fmod_facts T n hn (le_trans
    (le_of_lt hn) hnT)
  by_contra hlt
  push_neg at hlt
  have hb0 : T.fdiv n ≤ 0 := by omega
  have : T.fdiv n * n ≤ 0 := mul_nonpos_iff.mpr (Or.inr ⟨hb0, le_of_lt hn⟩)
  omega

lemma chunkOffset_succ_le (base rem : ℤ) (hbase : 0 ≤ base) (i : Nat) :
    chunkOffset base rem i ≤ chunkOffset base rem (i + 1) := by
  rw [chunkOffset_succ]
  split <;> omega

lemma chunkOffset_succ_lt (base rem : ℤ) (hbase : 1 ≤ base) (i : Nat) :
    chunkOffset base rem i + 1 ≤ chunkOffset base rem (i + 1) := by
  rw [chunkOffset_succ]
  split <;> omega

lemma getD_map_range {α : Type*} (f : Nat → α) {m i : Nat} (h : i < m)
    (d : α) : ((List.range m).map f).getD i d = f i := by
  rw [List.getD_eq_getElem?_getD]
  simp [List.getElem?_map, List.getElem?_range h]

/-- Discrete intermediate-value fact: a step-monotone integer sequence
passes through every intermediate value's interval. -/
lemma exists_step_interval (f : Nat → ℤ)
    (hmono : ∀ j, f j ≤ f (j + 1)) :
    ∀ (m : Nat) (d : ℤ), f 0 ≤ d → d < f m →
      ∃ i, i < m ∧ f i ≤ d ∧ d < f (i + 1) := by
  intro m
  induction m with
  | zero => intro d h0 hm; exact absurd hm (not_lt.mpr h0)
  | succ m ih =>
    intro d h0 hm
    by_cases hd : d < f m
    · obtain ⟨i, hi, h1, h2⟩ := ih d h0 hd
      exact ⟨i, Nat.lt_succ_of_lt hi, h1, h2⟩
    · push_neg at hd
      exact ⟨m, Nat.lt_succ_self m, hd, hm⟩

/-- C1: for every inclusive range `[lo, hi]` with `lo ≤ hi` and every
positive `total_chunks ≤ hi - lo + 1`, `partition_range` returns
`total_chunks` sub-ranges that are nonempty, contiguous, ascending
(hence non-overlapping), cover `[lo, hi]` exactly, and whose widths are
`base + 1` exactly on the first `remainder` indices and `base` on the
rest, where `base = (hi-lo+1) // total_chunks` and
`remainder = (hi-lo+1) % total_chunks` (so any two widths differ by at
most 1 and the wider chunks come first). -/
theorem C1_partition_range_correct (lo hi n : ℤ)
    (h1 : lo ≤ hi) (h2 : 0 < n) (h3 : n ≤ hi - lo + 1) :
    (partition_range lo hi n).length = n.toNat ∧
    ((partition_range lo hi n).getD 0 (0, 0)).1 = lo ∧
    ((partition_range lo hi n).getD (n.toNat - 1) (0, 0)).2 = hi ∧
    (∀ i : Nat, i < n.toNat →
      ((partition_range lo hi n).getD i (0, 0)).1 ≤
        ((partition_range lo hi n).getD i (0, 0)).2) ∧
    (∀ i : Nat, i < n.toNat →
      ((partition_range lo hi n).getD i (0, 0)).2 -
          ((partition_range lo hi n).getD i (0, 0)).1 + 1 =
        (if (i : ℤ) < (hi - lo + 1).fmod n then (hi - lo + 1).fdiv n + 1
         else (hi - lo + 1).fdiv n)) ∧
    (∀ i : Nat, i + 1 < n.toNat →
      ((partition_range lo hi n).getD i (0, 0)).2 + 1 =
        ((partition_range lo hi n).getD (i + 1) (0, 0)).1) ∧
    (∀ i j : Nat, i < j → j < n.toNat →
      ((partition_range lo hi n).getD i (0, 0)).2 <
        ((partition_range lo hi n).getD j (0, 0)).1) ∧
    (∀ x : ℤ, (lo ≤ x ∧ x ≤ hi) ↔ ∃ i : Nat, i < n.toNat ∧
      ((partition_range lo hi n).getD i (0, 0)).1 ≤ x ∧
      x ≤ ((partition_range lo hi n).getD i (0, 0)).2) := by
  have hT : 0 ≤ hi - lo + 1 := by omega
  obtain ⟨hbase0, hrem0, hremlt, hid⟩ := fdiv_fmod_facts (hi - lo + 1) n
    h2 hT
  have hbase1 : 1 ≤ (hi - lo + 1).fdiv n := fdiv_one_le _ n h2 h3
  have heq := partition_range_eq lo hi n h2 hT
  have hmZ : ((n.toNat : ℤ)) = n := Int.toNat_of_nonneg (le_of_lt h2)
  have hm1 : 1 ≤ n.toNat := by omega
  have hofftop : chunkOffset ((hi - lo + 1).fdiv n) ((hi - lo + 1).fmod n)
      n.toNat = hi - lo + 1 := by
    rw [chunkOffset_top _ _ _ (by rw [hmZ]; exact le_of_lt hremlt), hmZ,
      hid]
  have hget : ∀ i : Nat, i < n.toNat →
      (partition_range lo hi n).getD i (0, 0) =
        (lo + chunkOffset ((hi - lo + 1).fdiv n) ((hi - lo + 1).fmod n) i,
         lo + chunkOffset ((hi - lo + 1).fdiv n) ((hi - lo + 1).fmod n)
           (i + 1) - 1) := by
    intro i him
    rw [heq, getD_map_range _ him]
  have hmono : ∀ a b : Nat, a ≤ b →
      chunkOffset ((hi - lo + 1).fdiv n) ((hi - lo + 1).fmod n) a ≤
        chunkOffset ((hi - lo + 1).fdiv n) ((hi - lo + 1).fmod n) b :=
    fun a b hab => chunkOffset_mono _ _ hbase0 hab
  have hstrict : ∀ i : Nat,
      chunkOffset ((hi - lo + 1).fdiv n) ((hi - lo + 1).fmod n) i + 1 ≤
        chunkOffset ((hi - lo + 1).fdiv n) ((hi - lo + 1).fmod n)
          (i + 1) :=
    fun i => chunkOffset_succ_lt _ _ hbase1 i
  have hoff0 : chunkOffset ((hi - lo + 1).fdiv n) ((hi - lo + 1).fmod n)
      0 = 0 := chunkOffset_zero _ _ hrem0
  have hlen : (partition_range lo hi n).length = n.toNat := by
    rw [heq]; simp
  refine ⟨hlen, ?_, ?_, ?_, ?_, ?_, ?_, ?_⟩
  · rw [hget 0 (by omega), hoff0, add_zero]
  · rw [hget (n.toNat - 1) (by omega)]
    have e : n.toNat - 1 + 1 = n.toNat := by omega
    rw [e, hofftop]
    ring
  · intro i him
    rw [hget i him]
    have := hstrict i
    omega
  · intro i him
    rw [hget i him, chunkOffset_succ]
    split <;> omega
  · intro i hi1
    rw [hget i (by omega), hget (i + 1) hi1]
    ring
  · intro i j hij hj
    rw [hget i (by omega), hget j hj]
    have h1' : i + 1 ≤ j := by omega
    have := hmono (i + 1) j h1'
    omega
  · intro x
    constructor
    · rintro ⟨hx1, hx2⟩
      obtain ⟨i, him, ha, hb⟩ := exists_step_interval
        (chunkOffset ((hi - lo + 1).fdiv n) ((hi - lo + 1).fmod n))
        (fun j => chunkOffset_succ_le _ _ hbase0 j) n.toNat (x - lo)
        (by rw [hoff0]; omega) (by rw [hofftop]; omega)
      refine ⟨i, him, ?_, ?_⟩ <;> rw [hget i him] <;> omega
    · rintro ⟨i, him, ha, hb⟩
      rw [hget i him] at ha hb
      have hge0 := hmono 0 i (by omega)
      rw [hoff0] at hge0
      have hle := hmono (i + 1) n.toNat (by omega)
      rw [hofftop] at hle
      omega

/-- Witness for `C1_partition_range_correct` at `lo = 0`, `hi = 9`,
`n = 3` (base 3, remainder 1: chunks `(0,3) (4,6) (7,9)`). -/
theorem C1_partition_range_correct_witness :
    (0 : ℤ) ≤ 9 ∧ (0 : ℤ) < 3 ∧ (3 : ℤ) ≤ 9 - 0 + 1 ∧
    ((partition_range 0 9 3).length = (3 : ℤ).toNat ∧
     ((partition_range 0 9 3).getD 0 (0, 0)).1 = 0 ∧
     ((partition_range 0 9 3).getD ((3 : ℤ).toNat - 1) (0, 0)).2 = 9 ∧
     (∀ i : Nat, i < (3 : ℤ).toNat →
       ((partition_range 0 9 3).getD i (0, 0)).1 ≤
         ((partition_range 0 9 3).getD i (0, 0)).2) ∧
     (∀ i : Nat, i < (3 : ℤ).toNat →
       ((partition_range 0 9 3).getD i (0, 0)).2 -
           ((partition_range 0 9 3).getD i (0, 0)).1 + 1 =
         (if (i : ℤ) < ((9 : ℤ) - 0 + 1).fmod 3 then
            ((9 : ℤ) - 0 + 1).fdiv 3 + 1
          else ((9 : ℤ) - 0 + 1).fdiv 3)) ∧
     (∀ i : Nat, i + 1 < (3 : ℤ).toNat →
       ((partition_range 0 9 3).getD i (0, 0)).2 + 1 =
         ((partition_range 0 9 3).getD (i + 1) (0, 0)).1) ∧
     (∀ i j : Nat, i < j → j < (3 : ℤ).toNat →
       ((partition_range 0 9 3).getD i (0, 0)).2 <
         ((partition_range 0 9 3).getD j (0, 0)).1) ∧
     (∀ x : ℤ, ((0 : ℤ) ≤ x ∧ x ≤ 9) ↔ ∃ i : Nat, i < (3 : ℤ).toNat ∧
       ((partition_range 0 9 3).getD i (0, 0)).1 ≤ x ∧
       x ≤ ((partition_range 0 9 3).getD i (0, 0)).2)) :=
  ⟨by norm_num, by norm_num, by norm_num,
   C1_partition_range_correct 0 9 3 (by norm_num) (by norm_num)
     (by norm_num)⟩

lemma sum_range_sub (g : Nat → ℤ) :
    ∀ m : Nat, ((List.range m).map (fun j => g (j + 1) - g j)).sum =
      g m - g 0 := by
  intro m
  induction m with
  | zero => simp
  | succ m ih =>
    rw [List.range_succ, List.map_append, List.sum_append, ih,
      List.map_singleton, List.sum_singleton]
    ring

/-- Summing a function of the elements over `l.enum` ignores the
indices. -/
lemma sum_enum_snd {α : Type*} (l : List α) (g : α → ℤ) :
    ((l.enum).map (fun p => g p.2)).sum = (l.map g).sum := by
  conv_rhs => rw [← List.enum_map_snd l]
  rw [List.map_map]
  exact congrArg List.sum (List.map_congr_left (fun a _ => rfl))

/-- The chunk widths of `partition_range`, each scaled by `c`, sum to
the full width times `c`. -/
lemma sum_combos_partition (lo hi n c : ℤ) (hn : 0 < n)
    (hT : 0 ≤ hi - lo + 1) :
    ((partition_range lo hi n).map
        (fun p => (p.2 - p.1 + 1) * c)).sum = (hi - lo + 1) * c := by
  obtain ⟨hbase0, hrem0, hremlt, hid⟩ := fdiv_fmod_facts (hi - lo + 1) n
    hn hT
  have hmZ : ((n.toNat : ℤ)) = n := Int.toNat_of_nonneg (le_of_lt hn)
  rw [partition_range_eq lo hi n hn hT, List.map_map]
  have hcong : (List.range n.toNat).map
      ((fun p : ℤ × ℤ => (p.2 - p.1 + 1) * c) ∘ (fun j =>
        (lo + chunkOffset ((hi - lo + 1).fdiv n) ((hi - lo + 1).fmod n) j,
         lo + chunkOffset ((hi - lo + 1).fdiv n) ((hi - lo + 1).fmod n)
           (j + 1) - 1))) =
      (List.range n.toNat).map (fun j =>
        chunkOffset ((hi - lo + 1).fdiv n) ((hi - lo + 1).fmod n)
            (j + 1) * c -
          chunkOffset ((hi - lo + 1).fdiv n) ((hi - lo + 1).fmod n) j *
            c) := by
    apply List.map_congr_left
    intro j _
    simp only [Function.comp_apply]
    ring
  have hsum := sum_range_sub (fun i => chunkOffset ((hi - lo + 1).fdiv n)
    ((hi - lo + 1).fmod n) i * c) n.toNat
  rw [hcong, hsum]
  rw [chunkOffset_zero _ _ hrem0,
    chunkOffset_top _ _ _ (by rw [hmZ]; exact le_of_lt hremlt), hmZ, hid]
  ring

/-- C4: for the 2byte category with `total_chunks = 2` the plan is
exactly the two chunks `[0xC2, 0xD0]` and `[0xD1, 0xDF]`, each of width
15 and combinatorial size `15 × 64 = 960`, summing to 1920. -/
theorem C4_two_byte_two_chunks :
    calculate_chunk_config "2byte" 2 = some
      { chunks := [
          { chunk_num := 0, harness := "verify_2byte_2chunks_0",
            byte_range := (0xC2, 0xD0), combos := 960 },
          { chunk_num := 1, harness := "verify_2byte_2chunks_1",
            byte_range := (0xD1, 0xDF), combos := 960 }],
        total := 3968 } ∧
    (0xD0 : ℤ) - 0xC2 + 1 = 15 ∧ (0xDF : ℤ) - 0xD1 + 1 = 15 ∧
    (15 * 64 : ℤ) = 960 ∧ (960 + 960 : ℤ) = 1920 := by
  refine ⟨by decide, by norm_num, by norm_num, by norm_num, by norm_num⟩

/-- C3: for every `total_chunks ≥ 1` the summed `combos` of the 3byte
and 4byte plans equal the plan's `total` field, but for the 2byte plan
the sum is 1920 (the true size of a 62-free, width-30 primary dimension
times 64) while the `total` field is 3968 — the code's `total_combos`
constant for "2byte" contradicts its own `byte1_range`. -/
theorem C3_sum_combos_vs_total (n : ℤ) (hn : 0 < n) :
    (∃ cfg, calculate_chunk_config "2byte" n = some cfg ∧
      (cfg.chunks.map (fun c => c.combos)).sum = 1920 ∧
      cfg.total = 3968 ∧ (1920 : ℤ) ≠ 3968) ∧
    (∃ cfg, calculate_chunk_config "3byte" n = some cfg ∧
      (cfg.chunks.map (fun c => c.combos)).sum = cfg.total) ∧
    (∃ cfg, calculate_chunk_config "4byte" n = some cfg ∧
      (cfg.chunks.map (fun c => c.combos)).sum = cfg.total) := by
  refine ⟨⟨_, rfl, ?_, rfl, by norm_num⟩, ⟨_, rfl, ?_⟩, ⟨_, rfl, ?_⟩⟩
  · rw [List.map_map]
    show ((partition_range 0xC2 0xDF n).enum.map
      (fun p : ℕ × ℤ × ℤ =>
        (p.2.2 - p.2.1 + 1) * (0xBF - 0x80 + 1))).sum = 1920
    have h := sum_enum_snd (partition_range 0xC2 0xDF n)
      (fun q : ℤ × ℤ => (q.2 - q.1 + 1) * (0xBF - 0x80 + 1))
    rw [h, sum_combos_partition 0xC2 0xDF n _ hn (by norm_num)]
    norm_num
  · rw [List.map_map]
    show ((partition_range 0xE1 0xEC n).enum.map
      (fun p : ℕ × ℤ × ℤ => (p.2.2 - p.2.1 + 1) *
        ((0xBF - 0x80 + 1) * (0xBF - 0x80 + 1)))).sum = 49152
    have h := sum_enum_snd (partition_range 0xE1 0xEC n)
      (fun q : ℤ × ℤ => (q.2 - q.1 + 1) *
        ((0xBF - 0x80 + 1) * (0xBF - 0x80 + 1)))
    rw [h, sum_combos_partition 0xE1 0xEC n _ hn (by norm_num)]
    norm_num
  · rw [List.map_map]
    show ((partition_range 0xF1 0xF3 n).enum.map
      (fun p : ℕ × ℤ × ℤ => (p.2.2 - p.2.1 + 1) *
        ((0xBF - 0x80 + 1) * (0xBF - 0x80 + 1) *
          (0xBF - 0x80 + 1)))).sum = 786432
    have h := sum_enum_snd (partition_range 0xF1 0xF3 n)
      (fun q : ℤ × ℤ => (q.2 - q.1 + 1) *
        ((0xBF - 0x80 + 1) * (0xBF - 0x80 + 1) * (0xBF - 0x80 + 1)))
    rw [h, sum_combos_partition 0xF1 0xF3 n _ hn (by norm_num)]
    norm_num

/-- Witness for `C3_sum_combos_vs_total` at `total_chunks = 2`. -/
theorem C3_sum_combos_vs_total_witness :
    (0 : ℤ) < 2 ∧
    ((∃ cfg, calculate_chunk_config "2byte" 2 = some cfg ∧
      (cfg.chunks.map (fun c => c.combos)).sum = 1920 ∧
      cfg.total = 3968 ∧ (1920 : ℤ) ≠ 3968) ∧
    (∃ cfg, calculate_chunk_config "3byte" 2 = some cfg ∧
      (cfg.chunks.map (fun c => c.combos)).sum = cfg.total) ∧
    (∃ cfg, calculate_chunk_config "4byte" 2 = some cfg ∧
      (cfg.chunks.map (fun c => c.combos)).sum = cfg.total)) :=
  ⟨by norm_num, C3_sum_combos_vs_total 2 (by norm_num)⟩

/-! ## `int()` on digit strings -/

lemma digit_not_ws (c : Char) (h : c.isDigit = true) :
    c.isWhitespace = false := by
  simp only [Char.isDigit, Bool.and_eq_true, decide_eq_true_eq] at h
  simp only [Char.isWhitespace, Bool.or_eq_false_iff,
    decide_eq_false_iff_not]
  obtain ⟨h1, h2⟩ := h
  refine ⟨⟨⟨?_, ?_⟩, ?_⟩, ?_⟩ <;> intro hc <;> subst hc <;> simp_all

lemma dropWhile_ws_of_digits (l : List Char)
    (h : ∀ c ∈ l, c.isDigit = true) :
    l.dropWhile Char.isWhitespace = l := by
  cases l with
  | nil => rfl
  | cons c t =>
    have hc := digit_not_ws c (h c (List.mem_cons_self c t))
    simp [List.dropWhile_cons, hc]

lemma pyStrip_digits (l : List Char) (h : ∀ c ∈ l, c.isDigit = true) :
    pyStrip l = l := by
  unfold pyStrip
  rw [dropWhile_ws_of_digits l h,
    dropWhile_ws_of_digits l.reverse
      (fun c hc => h c (List.mem_reverse.mp hc)),
    List.reverse_reverse]

lemma pyIntDigits_total :
    ∀ (l : List Char), (∀ c ∈ l, c.isDigit = true) →
      ∀ acc : Nat, ∃ v, pyIntDigits acc l = some v := by
  intro l
  induction l with
  | nil => exact fun _ acc => ⟨acc, rfl⟩
  | cons c t ih =>
    intro h acc
    have hc := h c (List.mem_cons_self c t)
    have hne : ¬ (c = '_') := by
      intro he
      rw [he] at hc
      exact absurd hc (by decide)
    obtain ⟨v, hv⟩ := ih (fun c' hc' => h c' (List.mem_cons_of_mem c hc'))
      (acc * 10 + (c.toNat - 48))
    refine ⟨v, ?_⟩
    rw [pyIntDigits.eq_def]
    dsimp only
    rw [if_neg hne, if_pos hc, hv]

/-- Python `int` succeeds on every nonempty plain-digit string. -/
lemma pyInt_digits (s : String) (h : isDecimalDigitString s = true) :
    ∃ k, pyInt s = some k := by
  unfold isDecimalDigitString at h
  rw [Bool.and_eq_true] at h
  obtain ⟨hne, hall⟩ := h
  have hall' : ∀ c ∈ s.toList, c.isDigit = true :=
    fun c hc => List.all_eq_true.mp hall c hc
  unfold pyInt
  rw [pyStrip_digits _ hall']
  cases hl : s.toList with
  | nil => rw [hl] at hne; simp at hne
  | cons c t =>
    rw [hl] at hall'
    have hc := hall' c (List.mem_cons_self c t)
    have hc1 : ¬ (c = '-') := by
      intro he; rw [he] at hc; exact absurd hc (by decide)
    have hc2 : ¬ (c = '+') := by
      intro he; rw [he] at hc; exact absurd hc (by decide)
    obtain ⟨v, hv⟩ := pyIntDigits_total t
      (fun c' hc' => hall' c' (List.mem_cons_of_mem c hc'))
      (c.toNat - 48)
    refine ⟨v, ?_⟩
    rw [pyIntCore.eq_def]
    dsimp only
    rw [if_neg hc1, if_neg hc2, if_pos hc, hv]
    rfl

/-! ## Characterization of `get_completed_chunks` -/

lemma getCompletedAux_mem (pt : String) :
    ∀ (rows : List Row) (acc s : Finset ℤ),
      getCompletedAux pt acc rows = Except.ok s →
      ∀ x : ℤ, x ∈ s ↔ (x ∈ acc ∨ ∃ r ∈ rows, r.Proof_Type = pt ∧
        r.Status = "SUCCESS" ∧ pyInt r.Chunk_Number = some x) := by
  intro rows
  induction rows with
  | nil =>
    intro acc s h x
    simp only [getCompletedAux, Except.ok.injEq] at h
    subst h
    simp
  | cons r rest ih =>
    intro acc s h x
    rw [getCompletedAux] at h
    by_cases hcond : r.Proof_Type = pt ∧ r.Status = "SUCCESS"
    · rw [if_pos hcond] at h
      cases hpi : pyInt r.Chunk_Number with
      | none => rw [hpi] at h; exact absurd h (by simp)
      | some k =>
        rw [hpi] at h
        rw [ih (insert k acc) s h x]
        constructor
        · rintro (hx | ⟨r', hr', hp⟩)
          · rcases Finset.mem_insert.mp hx with he | hx'
            · exact Or.inr ⟨r, List.mem_cons_self r rest, hcond.1,
                hcond.2, by rw [hpi, he]⟩
            · exact Or.inl hx'
          · exact Or.inr ⟨r', List.mem_cons_of_mem r hr', hp⟩
        · rintro (hx | ⟨r', hr', h1, h2, h3⟩)
          · exact Or.inl (Finset.mem_insert_of_mem hx)
          · rcases List.mem_cons.mp hr' with he | hr''
            · subst he
              rw [hpi] at h3
              injection h3 with hk
              exact Or.inl (Finset.mem_insert.mpr (Or.inl hk.symm))
            · exact Or.inr ⟨r', hr'', h1, h2, h3⟩
    · rw [if_neg hcond] at h
      rw [ih acc s h x]
      constructor
      · rintro (hx | ⟨r', hr', hp⟩)
        · exact Or.inl hx
        · exact Or.inr ⟨r', List.mem_cons_of_mem r hr', hp⟩
      · rintro (hx | ⟨r', hr', h1, h2, h3⟩)
        · exact Or.inl hx
        · rcases List.mem_cons.mp hr' with he | hr''
          · subst he; exact absurd ⟨h1, h2⟩ hcond
          · exact Or.inr ⟨r', hr'', h1, h2, h3⟩

lemma getCompletedAux_total (pt : String) :
    ∀ (rows : List Row) (acc : Finset ℤ),
      (∀ r ∈ rows, r.Proof_Type = pt → r.Status = "SUCCESS" →
        ∃ k, pyInt r.Chunk_Number = some k) →
      ∃ s, getCompletedAux pt acc rows = Except.ok s := by
  intro rows
  induction rows with
  | nil => exact fun acc _ => ⟨acc, rfl⟩
  | cons r rest ih =>
    intro acc h
    by_cases hcond : r.Proof_Type = pt ∧ r.Status = "SUCCESS"
    · obtain ⟨k, hk⟩ := h r (List.mem_cons_self r rest) hcond.1 hcond.2
      obtain ⟨s, hs⟩ := ih (insert k acc)
        (fun r' hr' => h r' (List.mem_cons_of_mem r hr'))
      refine ⟨s, ?_⟩
      rw [getCompletedAux, if_pos hcond, hk]
      exact hs
    · obtain ⟨s, hs⟩ := ih acc
        (fun r' hr' => h r' (List.mem_cons_of_mem r hr'))
      refine ⟨s, ?_⟩
      rw [getCompletedAux, if_neg hcond]
      exact hs

lemma getCompletedAux_tc_irrel (pt : String) (f : Row → String) :
    ∀ (rows : List Row) (acc : Finset ℤ),
      getCompletedAux pt acc (rows.map (fun r =>
        { r with Total_Chunks := f r })) = getCompletedAux pt acc rows := by
  intro rows
  induction rows with
  | nil => intro acc; rfl
  | cons r rest ih =>
    intro acc
    rw [List.map_cons, getCompletedAux, getCompletedAux]
    by_cases hcond : r.Proof_Type = pt ∧ r.Status = "SUCCESS"
    · rw [if_pos hcond, if_pos hcond]
      cases hpi : pyInt r.Chunk_Number with
      | none => rfl
      | some k => exact ih (insert k acc)
    · rw [if_neg hcond, if_neg hcond]
      exact ih acc

/-- C5: a SUCCESS row for chunk `k` under the current category puts `k`
in the reconciled completed-set and keeps `k` out of the
remaining-indices list, regardless of how many FAILED/TIMEOUT/ERROR
rows for `k` also exist and of the order of rows. -/
theorem C5_success_row_reconciles (cat : String) (rows : List Row)
    (s : Finset ℤ) (k : ℤ) (r : Row) (total : Nat)
    (hok : get_completed_chunks cat rows = Except.ok s)
    (hmem : r ∈ rows) (hcat : r.Proof_Type = cat)
    (hst : r.Status = "SUCCESS") (hk : pyInt r.Chunk_Number = some k) :
    k ∈ s ∧ ∀ i ∈ remainingChunks total s, (i : ℤ) ≠ k := by
  have hmm := getCompletedAux_mem cat rows ∅ s hok k
  have hks : k ∈ s := hmm.mpr (Or.inr ⟨r, hmem, hcat, hst, hk⟩)
  refine ⟨hks, ?_⟩
  intro i hi he
  rw [remainingChunks, List.mem_filter] at hi
  have h2 := hi.2
  simp only [decide_eq_true_eq] at h2
  exact h2 (by rw [he]; exact hks)

/-- Witness for `C5_success_row_reconciles`: a record holding FAILED,
SUCCESS and ERROR rows for chunk 0 of the 2byte category. -/
theorem C5_success_row_reconciles_witness :
    (get_completed_chunks "2byte"
      [sampleRow "2byte" "0" "FAILED", sampleRow "2byte" "0" "SUCCESS",
       sampleRow "2byte" "0" "ERROR: spawn"] = Except.ok {0}) ∧
    sampleRow "2byte" "0" "SUCCESS" ∈
      [sampleRow "2byte" "0" "FAILED", sampleRow "2byte" "0" "SUCCESS",
       sampleRow "2byte" "0" "ERROR: spawn"] ∧
    ((0 : ℤ) ∈ ({0} : Finset ℤ) ∧
     ∀ i ∈ remainingChunks 4 {0}, (i : ℤ) ≠ 0) :=
  ⟨rfl, by decide,
   C5_success_row_reconciles "2byte"
     [sampleRow "2byte" "0" "FAILED", sampleRow "2byte" "0" "SUCCESS",
      sampleRow "2byte" "0" "ERROR: spawn"] {0} 0
     (sampleRow "2byte" "0" "SUCCESS") 4 rfl (by decide) rfl rfl
     (by decide)⟩

/-- C9: the record path depends only on the chunk count (all categories
with one chunk count share a store); the completed-set only contains
indices backed by a SUCCESS row whose `Proof_Type` equals the current
category; the `Total_Chunks` column is never consulted. -/
theorem C9_shared_store_category_isolation :
    (∀ (t1 t2 : String) (nc : ℤ),
      (mkProofRecord t1 nc).csv_path = (mkProofRecord t2 nc).csv_path) ∧
    (∀ (cat : String) (rows : List Row) (s : Finset ℤ),
      get_completed_chunks cat rows = Except.ok s →
      ∀ x ∈ s, ∃ r ∈ rows, r.Proof_Type = cat ∧ r.Status = "SUCCESS" ∧
        pyInt r.Chunk_Number = some x) ∧
    (∀ (cat : String) (f : Row → String) (rows : List Row),
      get_completed_chunks cat (rows.map (fun r =>
          { r with Total_Chunks := f r })) =
        get_completed_chunks cat rows) := by
  refine ⟨fun t1 t2 nc => rfl, ?_, ?_⟩
  · intro cat rows s hok x hx
    rcases (getCompletedAux_mem cat rows ∅ s hok x).mp hx with hx0 | hret
    · exact absurd hx0 (Finset.not_mem_empty x)
    · exact hret
  · intro cat f rows
    exact getCompletedAux_tc_irrel cat f rows ∅

/-- Witness for `C9_shared_store_category_isolation` on a mixed-category
record with chunk count 4. -/
theorem C9_shared_store_category_isolation_witness :
    (mkProofRecord "2byte" 4).csv_path =
      (mkProofRecord "3byte" 4).csv_path ∧
    (∃ r ∈ [sampleRow "3byte" "1" "SUCCESS",
            sampleRow "2byte" "0" "SUCCESS"],
      r.Proof_Type = "2byte" ∧ r.Status = "SUCCESS" ∧
        pyInt r.Chunk_Number = some 0) ∧
    get_completed_chunks "2byte"
      ([sampleRow "3byte" "1" "SUCCESS",
        sampleRow "2byte" "0" "SUCCESS"].map
        (fun r => { r with Total_Chunks := "99" })) =
      get_completed_chunks "2byte"
        [sampleRow "3byte" "1" "SUCCESS",
         sampleRow "2byte" "0" "SUCCESS"] :=
  ⟨C9_shared_store_category_isolation.1 "2byte" "3byte" 4,
   C9_shared_store_category_isolation.2.1 "2byte"
     [sampleRow "3byte" "1" "SUCCESS", sampleRow "2byte" "0" "SUCCESS"]
     {0} rfl 0 (by decide),
   C9_shared_store_category_isolation.2.2 "2byte" (fun _ => "99")
     [sampleRow "3byte" "1" "SUCCESS", sampleRow "2byte" "0" "SUCCESS"]⟩

/-- C10: reconciliation is not total — a record with a SUCCESS row of
the current category whose `Chunk_Number` is not numeric makes the
session raise during reconciliation, before any chunk is dispatched;
records whose matching SUCCESS rows all carry plain-digit
`Chunk_Number` fields reconcile normally. -/
theorem C10_reconciliation_partiality :
    ((mainModel envC10).outcome =
      Outcome.raised "invalid literal for int() with base 10: abc" ∧
     (mainModel envC10).output.all
       (fun p => !(isChunkHeaderMsg p.2)) = true) ∧
    (∀ (cat : String) (rows : List Row),
      (∀ r ∈ rows, r.Proof_Type = cat → r.Status = "SUCCESS" →
        isDecimalDigitString r.Chunk_Number = true) →
      ∃ s, get_completed_chunks cat rows = Except.ok s) := by
  refine ⟨⟨rfl, by decide⟩, ?_⟩
  intro cat rows h
  refine getCompletedAux_total cat rows ∅ ?_
  intro r hr h1 h2
  exact pyInt_digits _ (h r hr h1 h2)

/-- Witness for `C10_reconciliation_partiality`: a well-formed record
reconciles normally. -/
theorem C10_reconciliation_partiality_witness :
    ∃ s, get_completed_chunks "2byte" [sampleRow "2byte" "7" "SUCCESS"] =
      Except.ok s :=
  C10_reconciliation_partiality.2 "2byte"
    [sampleRow "2byte" "7" "SUCCESS"] (by decide)

/-! ## `run_chunk` classification -/

lemma success_ne_error_str (m : String) :
    ¬ ("SUCCESS" = "ERROR: " ++ m) := by
  intro h
  have h2 := congrArg String.data h
  simp [String.data_append] at h2

lemma failed_ne_error_str (m : String) :
    ¬ ("FAILED" = "ERROR: " ++ m) := by
  intro h
  have h2 := congrArg String.data h
  simp [String.data_append] at h2

/-- C7: `run_chunk` is total (every branch of the `try`/`except`
returns a pair, so no exception reaches the caller) and, since the call
passes `timeout=None` — under which `subprocess.run` never raises
`TimeoutExpired` — classifies the outcome as SUCCESS exactly on exit
status 0, FAILED exactly on a nonzero exit status, and an
`ERROR: `-prefixed string exactly when the launch raised. -/
theorem C7_run_chunk_classification (elapsed : ℚ) (b : SubprocOutcome)
    (hb : b ≠ SubprocOutcome.timeoutExpired) :
    (run_chunk elapsed b).1 = elapsed ∧
    ((run_chunk elapsed b).2 = "SUCCESS" ↔
      b = SubprocOutcome.completed 0) ∧
    ((run_chunk elapsed b).2 = "FAILED" ↔
      ∃ r, ¬ (r = 0) ∧ b = SubprocOutcome.completed r) ∧
    ((∃ m, (run_chunk elapsed b).2 = "ERROR: " ++ m) ↔
      ∃ m, b = SubprocOutcome.raised m) := by
  cases b with
  | completed r =>
    by_cases hr : r = 0
    · subst hr
      refine ⟨rfl, ?_, ?_, ?_⟩
      · exact ⟨fun _ => rfl, fun _ => rfl⟩
      · constructor
        · intro h
          have h2 : ("SUCCESS" : String) = "FAILED" := h
          exact absurd h2 (by decide)
        · rintro ⟨r', hr', he⟩
          injection he with h0
          exact absurd h0.symm hr'
      · constructor
        · rintro ⟨m, hm⟩
          have h2 : ("SUCCESS" : String) = "ERROR: " ++ m := hm
          exact absurd h2 (success_ne_error_str m)
        · rintro ⟨m, hm⟩
          exact absurd hm (by simp)
    · have hred : run_chunk elapsed (SubprocOutcome.completed r) =
          (elapsed, "FAILED") := by
        rw [run_chunk.eq_def]
        dsimp only
        rw [if_neg hr]
      rw [hred]
      refine ⟨rfl, ?_, ?_, ?_⟩
      · constructor
        · intro h
          have h2 : ("FAILED" : String) = "SUCCESS" := h
          exact absurd h2 (by decide)
        · intro he
          injection he with h0
          exact absurd h0 hr
      · constructor
        · intro _; exact ⟨r, hr, rfl⟩
        · intro _; rfl
      · constructor
        · rintro ⟨m, hm⟩
          have h2 : ("FAILED" : String) = "ERROR: " ++ m := hm
          exact absurd h2 (failed_ne_error_str m)
        · rintro ⟨m, hm⟩
          exact absurd hm (by simp)
  | timeoutExpired => exact absurd rfl hb
  | raised m =>
    refine ⟨rfl, ?_, ?_, ?_⟩
    · constructor
      · intro h
        have h2 : ("SUCCESS" : String) = "ERROR: " ++ m := h.symm
        exact absurd h2 (success_ne_error_str m)
      · intro he; exact absurd he (by simp)
    · constructor
      · intro h
        have h2 : ("FAILED" : String) = "ERROR: " ++ m := h.symm
        exact absurd h2 (failed_ne_error_str m)
      · rintro ⟨r', _, he⟩; exact absurd he (by simp)
    · exact ⟨fun _ => ⟨m, rfl⟩, fun _ => ⟨m, rfl⟩⟩

/-- Witness for `C7_run_chunk_classification` at exit status 0. -/
theorem C7_run_chunk_classification_witness :
    (SubprocOutcome.completed 0 ≠ SubprocOutcome.timeoutExpired) ∧
    ((run_chunk 1 (SubprocOutcome.completed 0)).1 = 1 ∧
     ((run_chunk 1 (SubprocOutcome.completed 0)).2 = "SUCCESS" ↔
       SubprocOutcome.completed 0 = SubprocOutcome.completed 0) ∧
     ((run_chunk 1 (SubprocOutcome.completed 0)).2 = "FAILED" ↔
       ∃ r, ¬ (r = 0) ∧
         SubprocOutcome.completed 0 = SubprocOutcome.completed r) ∧
     ((∃ m, (run_chunk 1 (SubprocOutcome.completed 0)).2 =
         "ERROR: " ++ m) ↔
       ∃ m, SubprocOutcome.completed 0 = SubprocOutcome.raised m)) :=
  ⟨by decide, C7_run_chunk_classification 1 (SubprocOutcome.completed 0)
    (by decide)⟩

/-- C2 (code bug evidence): with a fresh record, a single-chunk 2byte
plan, a chunk job exiting nonzero (FAILED) and an operator answering
`y`, the in-memory completed-set gains the failed chunk —
`completed.add(chunk_num)` runs on every non-breaking path — so the
session prints progress `1/1` and `ALL CHUNKS VERIFIED` although the
persisted record holds no SUCCESS row (it reconciles to the empty
completed-set). -/
theorem C2_failed_chunk_counted_completed :
    (mainModel envC2).outcome = Outcome.returned ∧
    (Stream.stdout, Msg.chunkFailed "FAILED" 5) ∈
      (mainModel envC2).output ∧
    (Stream.stdout, Msg.progressUpdate 1 1) ∈ (mainModel envC2).output ∧
    (Stream.stdout, Msg.allVerified 3968) ∈ (mainModel envC2).output ∧
    get_completed_chunks "2byte" ((mainModel envC2).file.getD []) =
      Except.ok (∅ : Finset ℤ) ∧
    ((mainModel envC2).file.getD []).length = 1 :=
  ⟨rfl, by decide, by decide, by decide, rfl, rfl⟩

/-- C8 counterexample: on the invalid category `5byte` the program does
exit with status 1 before touching the record, and it does report the
error — but on standard output; nothing is ever written to standard
error. -/
theorem C8_error_not_on_stderr :
    (mainModel envC8).outcome = Outcome.exited 1 ∧
    (Stream.stdout, Msg.errInvalidType "5byte") ∈
      (mainModel envC8).output ∧
    ¬ (∃ q ∈ (mainModel envC8).output, q.1 = Stream.stderr) :=
  ⟨rfl, by decide, by decide⟩

/-- C8 as amended: an invalid category, non-positive or non-integer
chunk count makes the program print the user error to standard output,
exit with status 1, and leave the record file untouched (not created,
not appended). -/
theorem C8_usage_errors_stdout_exit (env : Env) (p t s : String)
    (hargv : env.argv = [p, t, s])
    (hbad : pyInt s = none ∨ (∃ n, pyInt s = some n ∧ n < 1) ∨
      (∃ n, pyInt s = some n ∧ 1 ≤ n ∧ lookupSpace t = none)) :
    (mainModel env).outcome = Outcome.exited 1 ∧
    (mainModel env).file = env.existingFile ∧
    (∃ msg, (mainModel env).output = [(Stream.stdout, msg)]) ∧
    (∀ q ∈ (mainModel env).output, q.1 = Stream.stdout) := by
  have h1 : env.argv.getD 1 "" = t := by rw [hargv]; rfl
  have h2 : env.argv.getD 2 "" = s := by rw [hargv]; rfl
  rw [mainModel]
  split
  · rename_i hne
    exact absurd (by rw [hargv]; rfl) hne
  · rw [h1, h2]
    dsimp only
    split
    · rename_i heq
      exact ⟨rfl, rfl, ⟨Msg.errNonInteger s, rfl⟩,
        by intro q hq; rw [List.mem_singleton] at hq; subst hq; rfl⟩
    · rename_i n' heq
      split
      · exact ⟨rfl, rfl, ⟨Msg.errNonPositive n', rfl⟩,
          by intro q hq; rw [List.mem_singleton] at hq; subst hq; rfl⟩
      · split
        · exact ⟨rfl, rfl, ⟨Msg.errInvalidType t, rfl⟩,
            by intro q hq; rw [List.mem_singleton] at hq; subst hq; rfl⟩
        · rename_i hlt hlook
          exfalso
          rcases hbad with h | ⟨n, hn, hn1⟩ | ⟨n, hn, _, hl⟩
          · rw [heq] at h; exact Option.noConfusion h
          · rw [heq] at hn
            injection hn with he
            exact hlt (he ▸ hn1)
          · rw [hl] at hlook
            exact hlook rfl

/-- Witness for `C8_usage_errors_stdout_exit` at the invalid category
`5byte`. -/
theorem C8_usage_errors_stdout_exit_witness :
    envC8.argv = ["kani_chunked_runner.py", "5byte", "3"] ∧
    ((mainModel envC8).outcome = Outcome.exited 1 ∧
     (mainModel envC8).file = envC8.existingFile ∧
     (∃ msg, (mainModel envC8).output = [(Stream.stdout, msg)]) ∧
     (∀ q ∈ (mainModel envC8).output, q.1 = Stream.stdout)) :=
  ⟨rfl, C8_usage_errors_stdout_exit envC8 "kani_chunked_runner.py"
    "5byte" "3" rfl (Or.inr (Or.inr ⟨3, by decide, by decide, rfl⟩))⟩

/-! ## Absence of any degenerate-chunk warning -/

lemma no_warn_append {l1 l2 : List (Stream × Msg)}
    (h1 : ∀ p ∈ l1, p.2 ≠ Msg.warnDegenerateChunks)
    (h2 : ∀ p ∈ l2, p.2 ≠ Msg.warnDegenerateChunks) :
    ∀ p ∈ l1 ++ l2, p.2 ≠ Msg.warnDegenerateChunks := by
  intro p hp
  rcases List.mem_append.mp hp with h | h
  · exact h1 p h
  · exact h2 p h

lemma no_warn_single {s : Stream} {m : Msg}
    (hm : m ≠ Msg.warnDegenerateChunks) :
    ∀ p ∈ ([(s, m)] : List (Stream × Msg)),
      p.2 ≠ Msg.warnDegenerateChunks := by
  intro p hp
  rw [List.mem_singleton] at hp
  subst hp
  exact hm

lemma no_warn_pair {s1 s2 : Stream} {m1 m2 : Msg}
    (h1 : m1 ≠ Msg.warnDegenerateChunks)
    (h2 : m2 ≠ Msg.warnDegenerateChunks) :
    ∀ p ∈ ([(s1, m1), (s2, m2)] : List (Stream × Msg)),
      p.2 ≠ Msg.warnDegenerateChunks := by
  intro p hp
  rcases List.mem_cons.mp hp with h | h
  · subst h; exact h1
  · rw [List.mem_singleton] at h; subst h; exact h2

lemma mainLoop_no_warn (env : Env) (rec0 : ProofRecordState)
    (config : ChunkConfig) (total_chunks : Nat) :
    ∀ (l : List Nat) (st : LoopState),
      (∀ p ∈ st.output, p.2 ≠ Msg.warnDegenerateChunks) →
      ∀ p ∈ (mainLoop env rec0 config total_chunks l st).output,
        p.2 ≠ Msg.warnDegenerateChunks := by
  intro l
  induction l with
  | nil =>
    intro st h
    rw [mainLoop]
    exact h
  | cons c rest ih =>
    intro st h
    rw [mainLoop]
    dsimp only
    split
    · apply ih
      dsimp only
      refine no_warn_append (no_warn_append (no_warn_append h ?_) ?_) ?_
      · exact no_warn_single (by simp)
      · exact no_warn_single (by simp)
      · exact no_warn_single (by simp)
    · split
      · dsimp only
        refine no_warn_append (no_warn_append (no_warn_append h ?_) ?_) ?_
        · exact no_warn_single (by simp)
        · exact no_warn_pair (by simp) (by simp)
        · exact no_warn_single (by simp)
      · apply ih
        dsimp only
        refine no_warn_append (no_warn_append (no_warn_append h ?_) ?_) ?_
        · exact no_warn_single (by simp)
        · exact no_warn_pair (by simp) (by simp)
        · exact no_warn_single (by simp)

lemma no_warn_triple {s1 s2 s3 : Stream} {m1 m2 m3 : Msg}
    (h1 : m1 ≠ Msg.warnDegenerateChunks)
    (h2 : m2 ≠ Msg.warnDegenerateChunks)
    (h3 : m3 ≠ Msg.warnDegenerateChunks) :
    ∀ p ∈ ([(s1, m1), (s2, m2), (s3, m3)] : List (Stream × Msg)),
      p.2 ≠ Msg.warnDegenerateChunks := by
  intro p hp
  rcases List.mem_cons.mp hp with h | h
  · subst h; exact h1
  · exact no_warn_pair h2 h3 p h

lemma mainWithConfig_no_warn (env : Env) (pt : String) (nc : ℤ)
    (config : ChunkConfig) :
    ∀ p ∈ (mainWithConfig env pt nc config).output,
      p.2 ≠ Msg.warnDegenerateChunks := by
  rw [mainWithConfig]
  have hinit : (match env.existingFile with
      | none => Msg.createdRecord (mkProofRecord pt nc).csv_path
      | some _ => Msg.usingRecord (mkProofRecord pt nc).csv_path) ≠
        Msg.warnDegenerateChunks := by
    cases env.existingFile <;> simp
  dsimp only
  split
  · exact no_warn_single hinit
  · split
    · dsimp only
      refine no_warn_append ?_ ?_
      · exact no_warn_pair hinit (by simp [summaryMsg])
      · exact no_warn_single (by simp)
    · split
      · dsimp only
        refine no_warn_append (no_warn_append ?_ ?_) ?_
        · exact no_warn_pair hinit (by simp [summaryMsg])
        · exact no_warn_triple (by simp) (by simp) (by simp)
        · exact no_warn_single (by simp)
      · dsimp only
        refine no_warn_append (no_warn_append (no_warn_append
          (mainLoop_no_warn env _ config _ _ _ ?_) ?_) ?_) ?_
        · dsimp only
          refine no_warn_append (no_warn_append ?_ ?_) ?_
          · exact no_warn_pair hinit (by simp [summaryMsg])
          · exact no_warn_triple (by simp) (by simp) (by simp)
          · exact no_warn_single (by simp)
        · exact no_warn_single (by simp [summaryMsg])
        · split
          · exact no_warn_single (by simp)
          · exact no_warn_single (by simp)
        · exact no_warn_single (by simp)

lemma mainModel_no_warn (env : Env) :
    ∀ p ∈ (mainModel env).output, p.2 ≠ Msg.warnDegenerateChunks := by
  rw [mainModel]
  split
  · exact no_warn_single (by simp)
  · dsimp only
    split
    · exact no_warn_single (by simp)
    · split
      · exact no_warn_single (by simp)
      · split
        · exact no_warn_single (by simp)
        · split
          · exact no_warn_single (by simp)
          · exact mainWithConfig_no_warn env _ _ _

/-- C6 counterexample: at the degenerate input `(0xC2, 0xDF)` with 31
chunks over a 30-value range, the session runs without error, but the
claimed Warning condition is never flagged: no message of the session
is a degenerate-chunk warning, so the conjunction asserted by the claim
fails at this input. -/
theorem C6_warning_counterexample :
    ¬ ((partition_range 0xC2 0xDF 31).length = 31 ∧
       ∃ p ∈ (mainModel envC6).output, p.2 = Msg.warnDegenerateChunks) := by
  rintro ⟨-, p, hp, hw⟩
  exact mainModel_no_warn envC6 p hp hw

/-- C6 as amended: for `total_chunks` exceeding the range width the
partition does not raise: it still returns exactly `total_chunks`
entries; the first `hi-lo+1` are singleton ranges covering `[lo, hi]`
exactly and the excess entries are zero-width `(hi+1, hi)` — upper
bound one below lower bound, width 0 and hence
`combinatorial_size = 0`.  But no Warning condition is flagged: no
session of the program ever emits a degenerate-chunk warning; the
caller silently receives the empty work. -/
theorem C6_degenerate_chunks_silent (lo hi n : ℤ)
    (h1 : lo ≤ hi) (h2 : hi - lo + 1 < n) :
    (partition_range lo hi n).length = n.toNat ∧
    (∀ i : Nat, i < (hi - lo + 1).toNat →
      (partition_range lo hi n).getD i (0, 0) = (lo + i, lo + i)) ∧
    (∀ i : Nat, (hi - lo + 1).toNat ≤ i → i < n.toNat →
      (partition_range lo hi n).getD i (0, 0) = (hi + 1, hi)) ∧
    (∀ i : Nat, (hi - lo + 1).toNat ≤ i → i < n.toNat →
      ((partition_range lo hi n).getD i (0, 0)).2 -
        ((partition_range lo hi n).getD i (0, 0)).1 + 1 = 0) ∧
    (∀ x : ℤ, (lo ≤ x ∧ x ≤ hi) ↔ ∃ i : Nat, i < n.toNat ∧
      ((partition_range lo hi n).getD i (0, 0)).1 ≤ x ∧
      x ≤ ((partition_range lo hi n).getD i (0, 0)).2) ∧
    (∀ env : Env, ∀ p ∈ (mainModel env).output,
      p.2 ≠ Msg.warnDegenerateChunks) := by
  have hT0 : 0 ≤ hi - lo + 1 := by omega
  have hn : 0 < n := by omega
  have hfd : (hi - lo + 1).fdiv n = 0 := by
    rw [Int.fdiv_eq_ediv _ (le_of_lt hn)]
    exact Int.ediv_eq_zero_of_lt hT0 h2
  have hfm : (hi - lo + 1).fmod n = hi - lo + 1 := by
    rw [Int.fmod_eq_emod _ (le_of_lt hn)]
    exact Int.emod_eq_of_lt hT0 h2
  have heq := partition_range_eq lo hi n hn hT0
  rw [hfd, hfm] at heq
  have hoff : ∀ j : Nat, chunkOffset 0 (hi - lo + 1) j =
      min (j : ℤ) (hi - lo + 1) := by
    intro j; simp [chunkOffset]
  have hget : ∀ i : Nat, i < n.toNat →
      (partition_range lo hi n).getD i (0, 0) =
        (lo + min (i : ℤ) (hi - lo + 1),
         lo + min ((i : ℤ) + 1) (hi - lo + 1) - 1) := by
    intro i him
    rw [heq, getD_map_range _ him, hoff i, hoff (i + 1)]
    push_cast
    rfl
  refine ⟨?_, ?_, ?_, ?_, ?_, fun env => mainModel_no_warn env⟩
  · rw [heq]; simp
  · intro i hiT
    rw [hget i (by omega), Prod.mk.injEq]
    constructor <;> omega
  · intro i hiT hin
    rw [hget i hin, Prod.mk.injEq]
    constructor <;> omega
  · intro i hiT hin
    rw [hget i hin]
    omega
  · intro x
    constructor
    · rintro ⟨hx1, hx2⟩
      refine ⟨(x - lo).toNat, by omega, ?_, ?_⟩ <;>
        rw [hget _ (by omega)] <;> omega
    · rintro ⟨i, him, ha, hb⟩
      rw [hget i him] at ha hb
      omega

/-- Witness for `C6_degenerate_chunks_silent` at the 2byte primary
range with 31 chunks. -/
theorem C6_degenerate_chunks_silent_witness :
    ((0xC2 : ℤ) ≤ 0xDF ∧ (0xDF : ℤ) - 0xC2 + 1 < 31) ∧
    ((partition_range 0xC2 0xDF 31).length = (31 : ℤ).toNat ∧
     (∀ i : Nat, i < ((0xDF : ℤ) - 0xC2 + 1).toNat →
       (partition_range 0xC2 0xDF 31).getD i (0, 0) =
         ((0xC2 : ℤ) + i, (0xC2 : ℤ) + i)) ∧
     (∀ i : Nat, ((0xDF : ℤ) - 0xC2 + 1).toNat ≤ i →
       i < (31 : ℤ).toNat →
       (partition_range 0xC2 0xDF 31).getD i (0, 0) =
         (0xDF + 1, 0xDF)) ∧
     (∀ i : Nat, ((0xDF : ℤ) - 0xC2 + 1).toNat ≤ i →
       i < (31 : ℤ).toNat →
       ((partition_range 0xC2 0xDF 31).getD i (0, 0)).2 -
         ((partition_range 0xC2 0xDF 31).getD i (0, 0)).1 + 1 = 0) ∧
     (∀ x : ℤ, ((0xC2 : ℤ) ≤ x ∧ x ≤ 0xDF) ↔
       ∃ i : Nat, i < (31 : ℤ).toNat ∧
       ((partition_range 0xC2 0xDF 31).getD i (0, 0)).1 ≤ x ∧
       x ≤ ((partition_range 0xC2 0xDF 31).getD i (0, 0)).2) ∧
     (∀ env : Env, ∀ p ∈ (mainModel env).output,
       p.2 ≠ Msg.warnDegenerateChunks)) :=
  ⟨⟨by norm_num, by norm_num⟩,
   C6_degenerate_chunks_silent 0xC2 0xDF 31 (by norm_num) (by norm_num)⟩

end KaniRunner
